import Mathlib

/-!
Shallow embedding of the checkers rules engine, move enumerator and move
selector of the repository (GameLogic header and implementation,
CheckersAI), together with proofs of the specified properties.

Machine integers of the C++ source are modelled as `Int` (all arithmetic in
the embedded code stays far from 32-bit overflow).  The 8x8 board of
`std::array` rows is modelled as a total function `Fin 8 → Fin 8 → Piece`;
the C++ code only indexes the board after an `inBounds` check, which the
embedding mirrors through the guarded accessor `boardGet`.
-/

namespace Checkers

/-- The `Piece` enum of the game header: square contents. -/
inductive Piece where
  | Empty
  | TealMan
  | PurpleMan
  | TealKing
  | PurpleKing
  deriving DecidableEq, Repr

/-- `BOARD_SIZE = 8`, the standard board. -/
def BOARD_SIZE : Int := 8

/-- `isTealPiece`: `p == Piece.TealMan || p == Piece.TealKing`. -/
def isTealPiece (p : Piece) : Bool :=
  decide (p = Piece.TealMan) || decide (p = Piece.TealKing)

/-- `isPurplePiece`: `p == Piece.PurpleMan || p == Piece.PurpleKing`. -/
def isPurplePiece (p : Piece) : Bool :=
  decide (p = Piece.PurpleMan) || decide (p = Piece.PurpleKing)

/-- `inBounds(r, c)`: both coordinates within `[0, BOARD_SIZE)`. -/
def inBounds (r c : Int) : Bool :=
  decide (0 ≤ r) && decide (r < BOARD_SIZE) && decide (0 ≤ c) && decide (c < BOARD_SIZE)

/-- `isDarkSquare(r, c)`: `(r + c) % 2 == 1` with C truncated remainder. -/
def isDarkSquare (r c : Int) : Bool :=
  decide ((r + c).tmod 2 = 1)

/-- The board: an 8x8 grid of squares. -/
abbrev Board := Fin 8 → Fin 8 → Piece

/-- Read `board[r][c]` for `Int` indices; the source only reads after an
`inBounds` check, so the `Piece.Empty` fallback for out-of-range indices is never
relevant to the embedded control flow. -/
def boardGet (b : Board) (r c : Int) : Piece :=
  if h : 0 ≤ r ∧ r < 8 ∧ 0 ≤ c ∧ c < 8 then
    b ⟨r.toNat, by omega⟩ ⟨c.toNat, by omega⟩
  else Piece.Empty

/-- Write `board[r][c] = p` for `Int` indices (used only in bounds). -/
def boardSet (b : Board) (r c : Int) (p : Piece) : Board :=
  fun i j => if (i.val : Int) = r ∧ (j.val : Int) = c then p else b i j

/-- The `GameState` struct: board, side to move, UI selection bookkeeping. -/
structure GameState where
  board : Board
  currentPlayer : Piece
  selectedRow : Int
  selectedCol : Int
  deriving DecidableEq

/-- Result of `applyMove`: the (possibly) mutated state, the returned
acceptance flag, and the `wasCapture` out-parameter. -/
structure MoveResult where
  state : GameState
  accepted : Bool
  wasCapture : Bool
  deriving DecidableEq

/-- `initBoard`: clear the grid, then teal men on dark squares of the first
`rowsPerSide = 3` rows and purple men on dark squares of the last 3 rows.
The two row ranges are disjoint, so the sequential loops of the source are
rendered as one case split per square. -/
def initBoard (s : GameState) : GameState :=
  { s with board := fun r c =>
      if (r.val : Int) < 3 ∧ isDarkSquare (r.val : Int) (c.val : Int) = true then Piece.TealMan
      else if BOARD_SIZE - 3 ≤ (r.val : Int) ∧ isDarkSquare (r.val : Int) (c.val : Int) = true then Piece.PurpleMan
      else Piece.Empty }

/-- The local `isKing` test of `applyMove`/`hasAnyMoves`:
`piece == Piece.TealKing || piece == Piece.PurpleKing`. -/
def pieceIsKing (p : Piece) : Bool :=
  decide (p = Piece.TealKing) || decide (p = Piece.PurpleKing)

/-- The local `forwardDir` of `applyMove`/`hasAnyMoves`: `+1` row for teal,
`-1` for purple. -/
def pieceForward (p : Piece) : Int :=
  if isTealPiece p = true then 1 else -1

/-- The `isAllowedDir` lambda of `applyMove`: a man moves only with its
forward row delta, a king with either. -/
def isAllowedDir (p : Piece) (deltaRow : Int) : Bool :=
  if deltaRow = pieceForward p then true
  else if pieceIsKing p = true ∧ deltaRow = -pieceForward p then true
  else false

/-- The kinging epilogue of `applyMove`: after a successful move of `piece`
to `(tr, tc)` over board `b`, promote a man that reached its far row. -/
def kinging (s : GameState) (b : Board) (piece : Piece) (tr tc : Int)
    (cap : Bool) : MoveResult :=
  if piece = Piece.TealMan ∧ tr = BOARD_SIZE - 1 then
    ⟨{ s with board := boardSet b tr tc Piece.TealKing }, true, cap⟩
  else if piece = Piece.PurpleMan ∧ tr = 0 then
    ⟨{ s with board := boardSet b tr tc Piece.PurpleKing }, true, cap⟩
  else ⟨{ s with board := b }, true, cap⟩

/-- `applyMove(state, sr, sc, tr, tc, wasCapture)`: validate and apply one
simple step or one capturing jump; every early `return false` of the source
becomes a `⟨s, false, false⟩` branch (the out-parameter `wasCapture` is set
to `false` on entry). -/
def applyMove (s : GameState) (sr sc tr tc : Int) : MoveResult :=
  if inBounds sr sc = false ∨ inBounds tr tc = false then ⟨s, false, false⟩
  else if isDarkSquare tr tc = false then ⟨s, false, false⟩
  else if boardGet s.board tr tc ≠ Piece.Empty then ⟨s, false, false⟩
  else if boardGet s.board sr sc = Piece.Empty then ⟨s, false, false⟩
  else if isTealPiece (boardGet s.board sr sc) = false ∧
          isPurplePiece (boardGet s.board sr sc) = false then ⟨s, false, false⟩
  else if (tc - sc).natAbs = 1 ∧ (tr - sr).natAbs = 1 ∧
          isAllowedDir (boardGet s.board sr sc) (tr - sr) = true then
    kinging s (boardSet (boardSet s.board tr tc (boardGet s.board sr sc)) sr sc Piece.Empty)
      (boardGet s.board sr sc) tr tc false
  else if (tc - sc).natAbs = 2 ∧ (tr - sr).natAbs = 2 ∧
          isAllowedDir (boardGet s.board sr sc) ((tr - sr) / 2) = true then
    if inBounds (sr + (tr - sr) / 2) (sc + (tc - sc) / 2) = false then ⟨s, false, false⟩
    else if boardGet s.board (sr + (tr - sr) / 2) (sc + (tc - sc) / 2) = Piece.Empty then
      ⟨s, false, false⟩
    else if (isTealPiece (boardGet s.board sr sc) = true ∧
             isPurplePiece (boardGet s.board (sr + (tr - sr) / 2) (sc + (tc - sc) / 2)) = false) ∨
            (isPurplePiece (boardGet s.board sr sc) = true ∧
             isTealPiece (boardGet s.board (sr + (tr - sr) / 2) (sc + (tc - sc) / 2)) = false) then
      ⟨s, false, false⟩
    else
      kinging s
        (boardSet
          (boardSet (boardSet s.board (sr + (tr - sr) / 2) (sc + (tc - sc) / 2) Piece.Empty)
            tr tc (boardGet s.board sr sc))
          sr sc Piece.Empty)
        (boardGet s.board sr sc) tr tc true
  else ⟨s, false, false⟩

/-- `countPieces`: scan the grid, counting teal and purple pieces
(men and kings alike). -/
def countPieces (s : GameState) : Int × Int :=
  (List.finRange 8).foldl
    (fun acc r =>
      (List.finRange 8).foldl
        (fun acc2 c =>
          if isTealPiece (s.board r c) = true then (acc2.1 + 1, acc2.2)
          else if isPurplePiece (s.board r c) = true then (acc2.1, acc2.2 + 1)
          else acc2)
        acc)
    (0, 0)

/-- `hasAnyMoves(state, player)`: scan every square of the queried side and
trial-apply each candidate offset on a scratch copy via `applyMove`;
`List.any` renders the short-circuiting loops with `continue`. -/
def hasAnyMoves (s : GameState) (player : Piece) : Bool :=
  (List.finRange 8).any fun r =>
    (List.finRange 8).any fun c =>
      if s.board r c = Piece.Empty then false
      else if isTealPiece player = true ∧ isTealPiece (s.board r c) = false then false
      else if isPurplePiece player = true ∧ isPurplePiece (s.board r c) = false then false
      else
        ([(-2 : Int), -1, 1, 2]).any fun dc =>
          ([(1 : Int), 2]).any fun step =>
            ([(1 : Int), -1]).any fun dirSign =>
              if pieceIsKing (s.board r c) = false ∧
                 step * dirSign ≠ pieceForward (s.board r c) ∧
                 step * dirSign ≠ 2 * pieceForward (s.board r c) then false
              else
                (applyMove s (r.val : Int) (c.val : Int)
                  ((r.val : Int) + step * dirSign)
                  ((c.val : Int) + (if 0 < dc then step else -step))).accepted

/-- The `Move` record of the AI: source, target, capture flag. -/
structure Move where
  sr : Int
  sc : Int
  tr : Int
  tc : Int
  isCapture : Bool
  deriving DecidableEq, Repr

/-- The move-generation loop of `chooseMove`: every purple man or king, every
nonzero row and column offset in `[-2, 2]`, trial-applied on a scratch copy;
accepted candidates are collected in loop order with their capture flag. -/
def purpleMoves (s : GameState) : List Move :=
  (List.finRange 8).flatMap fun r =>
    (List.finRange 8).flatMap fun c =>
      if s.board r c = Piece.PurpleMan ∨ s.board r c = Piece.PurpleKing then
        ([(-2 : Int), -1, 1, 2]).flatMap fun dr =>
          ([(-2 : Int), -1, 1, 2]).flatMap fun dc =>
            if (applyMove s (r.val : Int) (c.val : Int)
                  ((r.val : Int) + dr) ((c.val : Int) + dc)).accepted = true then
              [⟨(r.val : Int), (c.val : Int), (r.val : Int) + dr, (c.val : Int) + dc,
                (applyMove s (r.val : Int) (c.val : Int)
                  ((r.val : Int) + dr) ((c.val : Int) + dc)).wasCapture⟩]
            else []
      else []

/-- `evaluatePosition`: purple piece count minus teal piece count. -/
def evaluatePosition (s : GameState) : Int :=
  (countPieces s).2 - (countPieces s).1

/-- The per-move score of `chooseMove`: evaluate the position after applying
the move to a scratch copy, plus 2 if the stored flag marks a capture. -/
def moveScore (s : GameState) (m : Move) : Int :=
  evaluatePosition (applyMove s m.sr m.sc m.tr m.tc).state +
    (if m.isCapture = true then 2 else 0)

/-- The two-billion-ish sentinel `std::numeric_limits<int>::min()` used to
seed the best-score scan. -/
def INT_MIN : Int := -(2 ^ 31)

/-- The best-move scan of `chooseMove`: fold the scored move list, keeping
the running best score and the list of moves achieving it. -/
def bestFold (s : GameState) (moves : List Move) : Int × List Move :=
  moves.foldl
    (fun acc m =>
      if moveScore s m > acc.1 then (moveScore s m, [m])
      else if moveScore s m = acc.1 then (acc.1, acc.2 ++ [m])
      else acc)
    (INT_MIN, [])

/-- The default-constructed `Move chosen;` of the source; it is only read
after being overwritten, and the embedding likewise never selects it. -/
def dummyMove : Move := ⟨0, 0, 0, 0, false⟩

/-- `CheckersAI::chooseMove`: generate all purple moves, return none when
there are no moves, otherwise pick from `bestMoves` when the coin lands
below the half threshold (`coin` models the event `prob(rng) < 0.5`) and
`bestMoves` is nonempty, else pick any legal move; `bestIdx`/`allIdx` model
the uniform index draws, reduced modulo the list length. -/
def chooseMove (s : GameState) (coin : Bool) (bestIdx allIdx : Nat) : Option Move :=
  if purpleMoves s = [] then none
  else if (bestFold s (purpleMoves s)).2 ≠ [] ∧ coin = true then
    some ((bestFold s (purpleMoves s)).2.getD
      (bestIdx % (bestFold s (purpleMoves s)).2.length) dummyMove)
  else
    some ((purpleMoves s).getD (allIdx % (purpleMoves s).length) dummyMove)

/-- Modelled from the spec: the difficulty-parameterised move selector.  The
AI header of the repository declares `AIDifficulty` presets (easy/medium/hard
mapping to optimal-move probabilities 0.3/0.6/1.0) and an
`optimalMoveChance` field, but the matching implementation file is not among
the sources; per the spec, a uniform draw `q` in `[0,1)` is compared against
the configured `optimalMoveChance`, picking from `bestMoves` when
`q < optimalMoveChance` and `bestMoves` is nonempty, else from `allMoves`.
Everything except that comparison is shared with the sourced `chooseMove`. -/
def chooseMoveChance (s : GameState) (optimalMoveChance q : ℚ)
    (bestIdx allIdx : Nat) : Option Move :=
  if purpleMoves s = [] then none
  else if q < optimalMoveChance ∧ (bestFold s (purpleMoves s)).2 ≠ [] then
    some ((bestFold s (purpleMoves s)).2.getD
      (bestIdx % (bestFold s (purpleMoves s)).2.length) dummyMove)
  else
    some ((purpleMoves s).getD (allIdx % (purpleMoves s).length) dummyMove)

/-- A default-constructed `GameState`: zero-initialised board (all squares
`Piece.Empty`), teal to move, no selection. -/
def emptyState : GameState :=
  { board := fun _ _ => Piece.Empty
    currentPlayer := Piece.TealMan
    selectedRow := -1
    selectedCol := -1 }

/-- The freshly initialised game state. -/
def initState : GameState := initBoard emptyState

/-- Scenario board for the capture claim: a teal man at (2,1) and a purple
man at (3,2) on an otherwise empty board. -/
def captureState : GameState :=
  { emptyState with
      board := boardSet (boardSet emptyState.board 2 1 Piece.TealMan) 3 2 Piece.PurpleMan }

/-- Scenario board for the promotion claim: a lone teal man at (6,5). -/
def promoState : GameState :=
  { emptyState with board := boardSet emptyState.board 6 5 Piece.TealMan }

/-- States reachable from some initialised board through accepted
`applyMove` calls. -/
inductive Reachable : GameState → Prop where
  | init : ∀ s : GameState, Reachable (initBoard s)
  | step : ∀ (s : GameState) (sr sc tr tc : Int), Reachable s →
      (applyMove s sr sc tr tc).accepted = true →
      Reachable (applyMove s sr sc tr tc).state

/-- The value the kinging epilogue leaves on the destination square for a
piece that just moved to row `tr`. -/
def promoteVal (piece : Piece) (tr : Int) : Piece :=
  if piece = Piece.TealMan ∧ tr = BOARD_SIZE - 1 then Piece.TealKing
  else if piece = Piece.PurpleMan ∧ tr = 0 then Piece.PurpleKing
  else piece

/-- Purple has a legal move: some in-bounds source square holding a purple
man or king and some in-bounds destination accepted by `applyMove`. -/
def purpleHasLegalMove (s : GameState) : Prop :=
  ∃ sr sc tr tc : Fin 8,
    (s.board sr sc = Piece.PurpleMan ∨ s.board sr sc = Piece.PurpleKing) ∧
    (applyMove s (sr.val : Int) (sc.val : Int) (tr.val : Int) (tc.val : Int)).accepted = true

/-- The claim's post-move score of an arbitrary coordinate quadruple:
position evaluation after the move plus the capture bonus. -/
def scoreOf (s : GameState) (sr sc tr tc : Int) : Int :=
  evaluatePosition (applyMove s sr sc tr tc).state +
    (if (applyMove s sr sc tr tc).wasCapture = true then 2 else 0)

/-! Basic facts about pieces, bounds and board access. -/

lemma piece_side {p : Piece} (h : p ≠ Piece.Empty) :
    isTealPiece p = true ∨ isPurplePiece p = true := by
  cases p <;> simp_all [isTealPiece, isPurplePiece]

lemma teal_ne_empty {p : Piece} (h : isTealPiece p = true) : p ≠ Piece.Empty := by
  cases p <;> simp_all [isTealPiece]

lemma purple_ne_empty {p : Piece} (h : isPurplePiece p = true) : p ≠ Piece.Empty := by
  cases p <;> simp_all [isPurplePiece]

lemma teal_not_purple {p : Piece} (h : isTealPiece p = true) : isPurplePiece p = false := by
  cases p <;> simp_all [isTealPiece, isPurplePiece]

lemma purple_not_teal {p : Piece} (h : isPurplePiece p = true) : isTealPiece p = false := by
  cases p <;> simp_all [isTealPiece, isPurplePiece]

lemma inBounds_iff {r c : Int} : inBounds r c = true ↔ 0 ≤ r ∧ r < 8 ∧ 0 ≤ c ∧ c < 8 := by
  simp [inBounds, BOARD_SIZE, and_assoc]

lemma inBounds_fin (r c : Fin 8) : inBounds (r.val : Int) (c.val : Int) = true := by
  rw [inBounds_iff]
  refine ⟨by omega, ?_, by omega, ?_⟩ <;> exact_mod_cast Int.ofNat_lt.mpr (by omega)

lemma boardGet_fin (b : Board) (r c : Fin 8) :
    boardGet b (r.val : Int) (c.val : Int) = b r c := by
  have hr := r.isLt
  have hc := c.isLt
  rw [boardGet, dif_pos (by constructor <;> omega)]
  congr 1 <;> exact Fin.ext (by simp)

lemma boardGet_eq_of_inBounds {b : Board} {r c : Int} (h : inBounds r c = true) :
    ∃ i j : Fin 8, (i.val : Int) = r ∧ (j.val : Int) = c ∧ boardGet b r c = b i j := by
  rw [inBounds_iff] at h
  refine ⟨⟨r.toNat, by omega⟩, ⟨c.toNat, by omega⟩, by simp; omega, by simp; omega, ?_⟩
  rw [boardGet, dif_pos (by omega)]

lemma boardSet_point (b : Board) (r c : Int) (p : Piece) (i j : Fin 8) :
    boardSet b r c p i j =
      if (i.val : Int) = r ∧ (j.val : Int) = c then p else b i j := rfl

/-! Facts about the kinging epilogue. -/

lemma kinging_accepted (s : GameState) (b : Board) (p : Piece) (tr tc : Int) (cap : Bool) :
    (kinging s b p tr tc cap).accepted = true := by
  rw [kinging]; split_ifs <;> rfl

lemma kinging_wasCapture (s : GameState) (b : Board) (p : Piece) (tr tc : Int) (cap : Bool) :
    (kinging s b p tr tc cap).wasCapture = cap := by
  rw [kinging]; split_ifs <;> rfl

lemma kinging_currentPlayer (s : GameState) (b : Board) (p : Piece) (tr tc : Int) (cap : Bool) :
    (kinging s b p tr tc cap).state.currentPlayer = s.currentPlayer := by
  rw [kinging]; split_ifs <;> rfl

lemma kinging_board_point (s : GameState) (b : Board) (p : Piece) (tr tc : Int)
    (cap : Bool) (i j : Fin 8) :
    (kinging s b p tr tc cap).state.board i j =
      if (i.val : Int) = tr ∧ (j.val : Int) = tc then
        (if p = Piece.TealMan ∧ tr = BOARD_SIZE - 1 then Piece.TealKing
         else if p = Piece.PurpleMan ∧ tr = 0 then Piece.PurpleKing
         else b i j)
      else b i j := by
  rw [kinging]
  split_ifs with h1 h2 h3 h3 h3 <;>
    simp_all [boardSet_point]

/-! Characterisation of `applyMove`. -/

lemma bool_ne_false {b : Bool} (h : ¬b = false) : b = true := by
  cases b
  · exact absurd rfl h
  · rfl

lemma bool_ne_true {b : Bool} (h : ¬b = true) : b = false := by
  cases b
  · rfl
  · exact absurd rfl h

abbrev simpleOk (s : GameState) (sr sc tr tc : Int) : Prop :=
  inBounds sr sc = true ∧ inBounds tr tc = true ∧ isDarkSquare tr tc = true ∧
  boardGet s.board tr tc = Piece.Empty ∧ boardGet s.board sr sc ≠ Piece.Empty ∧
  (tc - sc).natAbs = 1 ∧ (tr - sr).natAbs = 1 ∧
  isAllowedDir (boardGet s.board sr sc) (tr - sr) = true

abbrev captureOk (s : GameState) (sr sc tr tc : Int) : Prop :=
  inBounds sr sc = true ∧ inBounds tr tc = true ∧ isDarkSquare tr tc = true ∧
  boardGet s.board tr tc = Piece.Empty ∧ boardGet s.board sr sc ≠ Piece.Empty ∧
  (tc - sc).natAbs = 2 ∧ (tr - sr).natAbs = 2 ∧
  isAllowedDir (boardGet s.board sr sc) ((tr - sr) / 2) = true ∧
  ((isTealPiece (boardGet s.board sr sc) = true ∧
    isPurplePiece (boardGet s.board (sr + (tr - sr) / 2) (sc + (tc - sc) / 2)) = true) ∨
   (isPurplePiece (boardGet s.board sr sc) = true ∧
    isTealPiece (boardGet s.board (sr + (tr - sr) / 2) (sc + (tc - sc) / 2)) = true))

lemma mid_inBounds {sr sc tr tc : Int} (hs : inBounds sr sc = true)
    (ht : inBounds tr tc = true) (hdr : (tr - sr).natAbs = 2)
    (hdc : (tc - sc).natAbs = 2) :
    inBounds (sr + (tr - sr) / 2) (sc + (tc - sc) / 2) = true := by
  rw [inBounds_iff] at hs ht ⊢
  rcases (by omega : tr - sr = 2 ∨ tr - sr = -2) with h1 | h1 <;>
    rcases (by omega : tc - sc = 2 ∨ tc - sc = -2) with h2 | h2 <;>
      rw [h1, h2] <;> norm_num <;> omega

set_option maxHeartbeats 1000000 in
/-- An accepted simple step: move the piece, clear the source, king. -/
lemma applyMove_simple (s : GameState) (sr sc tr tc : Int)
    (h : simpleOk s sr sc tr tc) :
    applyMove s sr sc tr tc =
      kinging s (boardSet (boardSet s.board tr tc (boardGet s.board sr sc)) sr sc Piece.Empty)
        (boardGet s.board sr sc) tr tc false := by
  obtain ⟨c1, c2, c3, c4, c5, c6, c7, c8⟩ := h
  have hnot1 : ¬(inBounds sr sc = false ∨ inBounds tr tc = false) := by
    rintro (h | h)
    · rw [c1] at h; exact Bool.noConfusion h
    · rw [c2] at h; exact Bool.noConfusion h
  have hnot2 : ¬isDarkSquare tr tc = false := by
    rw [c3]; exact fun h => Bool.noConfusion h
  have hnot5 : ¬(isTealPiece (boardGet s.board sr sc) = false ∧
      isPurplePiece (boardGet s.board sr sc) = false) := by
    rintro ⟨hx, hy⟩
    rcases piece_side c5 with hp | hp
    · rw [hp] at hx; exact Bool.noConfusion hx
    · rw [hp] at hy; exact Bool.noConfusion hy
  rw [applyMove, if_neg hnot1, if_neg hnot2, if_neg (not_not.mpr c4), if_neg c5,
    if_neg hnot5, if_pos ⟨c6, c7, c8⟩]

set_option maxHeartbeats 1000000 in
/-- An accepted capture: clear the midpoint, move the piece, clear the
source, king. -/
lemma applyMove_capture (s : GameState) (sr sc tr tc : Int)
    (h : captureOk s sr sc tr tc) :
    applyMove s sr sc tr tc =
      kinging s
        (boardSet
          (boardSet (boardSet s.board (sr + (tr - sr) / 2) (sc + (tc - sc) / 2) Piece.Empty)
            tr tc (boardGet s.board sr sc))
          sr sc Piece.Empty)
        (boardGet s.board sr sc) tr tc true := by
  obtain ⟨c1, c2, c3, c4, c5, c6, c7, c8, c9⟩ := h
  have hnot1 : ¬(inBounds sr sc = false ∨ inBounds tr tc = false) := by
    rintro (h | h)
    · rw [c1] at h; exact Bool.noConfusion h
    · rw [c2] at h; exact Bool.noConfusion h
  have hnot2 : ¬isDarkSquare tr tc = false := by
    rw [c3]; exact fun h => Bool.noConfusion h
  have hnot5 : ¬(isTealPiece (boardGet s.board sr sc) = false ∧
      isPurplePiece (boardGet s.board sr sc) = false) := by
    rintro ⟨hx, hy⟩
    rcases piece_side c5 with hp | hp
    · rw [hp] at hx; exact Bool.noConfusion hx
    · rw [hp] at hy; exact Bool.noConfusion hy
  have hnot6 : ¬((tc - sc).natAbs = 1 ∧ (tr - sr).natAbs = 1 ∧
      isAllowedDir (boardGet s.board sr sc) (tr - sr) = true) := by
    rintro ⟨hx, -⟩
    rw [c6] at hx
    exact absurd hx (by norm_num)
  have hnot8 : ¬inBounds (sr + (tr - sr) / 2) (sc + (tc - sc) / 2) = false := by
    rw [mid_inBounds c1 c2 c7 c6]
    exact fun h => Bool.noConfusion h
  have hnot9 : ¬boardGet s.board (sr + (tr - sr) / 2) (sc + (tc - sc) / 2) = Piece.Empty := by
    rcases c9 with hm | hm
    · exact purple_ne_empty hm.2
    · exact teal_ne_empty hm.2
  have hnot10 : ¬((isTealPiece (boardGet s.board sr sc) = true ∧
      isPurplePiece (boardGet s.board (sr + (tr - sr) / 2) (sc + (tc - sc) / 2)) = false) ∨
      (isPurplePiece (boardGet s.board sr sc) = true ∧
      isTealPiece (boardGet s.board (sr + (tr - sr) / 2) (sc + (tc - sc) / 2)) = false)) := by
    rintro (hrej | hrej) <;> rcases c9 with hm | hm
    · rw [hm.2] at hrej; exact Bool.noConfusion hrej.2
    · rw [purple_not_teal hm.1] at hrej; exact Bool.noConfusion hrej.1
    · rw [teal_not_purple hm.1] at hrej; exact Bool.noConfusion hrej.1
    · rw [hm.2] at hrej; exact Bool.noConfusion hrej.2
  rw [applyMove, if_neg hnot1, if_neg hnot2, if_neg (not_not.mpr c4), if_neg c5,
    if_neg hnot5, if_neg hnot6, if_pos ⟨c6, c7, c8⟩, if_neg hnot8, if_neg hnot9,
    if_neg hnot10]

set_option maxHeartbeats 1000000 in
/-- A rejected move: neither a legal simple step nor a legal capture, and
`applyMove` leaves the state untouched. -/
lemma applyMove_rej (s : GameState) (sr sc tr tc : Int)
    (hns : ¬simpleOk s sr sc tr tc) (hnc : ¬captureOk s sr sc tr tc) :
    applyMove s sr sc tr tc = ⟨s, false, false⟩ := by
  rw [applyMove]
  set A := inBounds sr sc with hA
  set B := inBounds tr tc with hB
  set D := isDarkSquare tr tc with hD
  set T := boardGet s.board tr tc with hT
  set P := boardGet s.board sr sc with hP
  set M := boardGet s.board (sr + (tr - sr) / 2) (sc + (tc - sc) / 2) with hM
  set BM := inBounds (sr + (tr - sr) / 2) (sc + (tc - sc) / 2) with hBM
  set n1 := (tr - sr).natAbs with hn1
  set n2 := (tc - sc).natAbs with hn2
  set a1 := isAllowedDir P (tr - sr) with ha1
  set a2 := isAllowedDir P ((tr - sr) / 2) with ha2
  have mkSimple : ¬(A = false ∨ B = false) → ¬D = false → ¬T ≠ Piece.Empty →
      ¬P = Piece.Empty → n2 = 1 ∧ n1 = 1 ∧ a1 = true → simpleOk s sr sc tr tc := by
    intro c1 c2 c3 c4 c6
    refine ⟨?_, ?_, ?_, ?_, ?_, ?_, ?_, ?_⟩
    · rw [← hA]; exact bool_ne_false fun hx => c1 (Or.inl hx)
    · rw [← hB]; exact bool_ne_false fun hx => c1 (Or.inr hx)
    · rw [← hD]; exact bool_ne_false c2
    · rw [← hT]; exact not_not.mp c3
    · rw [← hP]; exact c4
    · rw [← hn2]; exact c6.1
    · rw [← hn1]; exact c6.2.1
    · rw [← ha1]; exact c6.2.2
  have mkCapture : ¬(A = false ∨ B = false) → ¬D = false → ¬T ≠ Piece.Empty →
      ¬P = Piece.Empty → n2 = 2 ∧ n1 = 2 ∧ a2 = true →
      ¬((isTealPiece P = true ∧ isPurplePiece M = false) ∨
        (isPurplePiece P = true ∧ isTealPiece M = false)) →
      captureOk s sr sc tr tc := by
    intro c1 c2 c3 c4 c7 c10
    refine ⟨?_, ?_, ?_, ?_, ?_, ?_, ?_, ?_, ?_⟩
    · rw [← hA]; exact bool_ne_false fun hx => c1 (Or.inl hx)
    · rw [← hB]; exact bool_ne_false fun hx => c1 (Or.inr hx)
    · rw [← hD]; exact bool_ne_false c2
    · rw [← hT]; exact not_not.mp c3
    · rw [← hP]; exact c4
    · rw [← hn2]; exact c7.1
    · rw [← hn1]; exact c7.2.1
    · rw [← ha2]; exact c7.2.2
    · rw [← hP, ← hM]
      rcases piece_side c4 with hp | hp
      · exact Or.inl ⟨hp, bool_ne_false fun hx => c10 (Or.inl ⟨hp, hx⟩)⟩
      · exact Or.inr ⟨hp, bool_ne_false fun hx => c10 (Or.inr ⟨hp, hx⟩)⟩
  by_cases h1 : A = false ∨ B = false
  · rw [if_pos h1]
  rw [if_neg h1]
  by_cases h2 : D = false
  · rw [if_pos h2]
  rw [if_neg h2]
  by_cases h3 : T ≠ Piece.Empty
  · rw [if_pos h3]
  rw [if_neg h3]
  by_cases h4 : P = Piece.Empty
  · rw [if_pos h4]
  rw [if_neg h4]
  by_cases h5 : isTealPiece P = false ∧ isPurplePiece P = false
  · rw [if_pos h5]
  rw [if_neg h5]
  have h6 : ¬(n2 = 1 ∧ n1 = 1 ∧ a1 = true) := fun hx => hns (mkSimple h1 h2 h3 h4 hx)
  rw [if_neg h6]
  by_cases h7 : n2 = 2 ∧ n1 = 2 ∧ a2 = true
  · rw [if_pos h7]
    by_cases h8 : BM = false
    · rw [if_pos h8]
    rw [if_neg h8]
    by_cases h9 : M = Piece.Empty
    · rw [if_pos h9]
    rw [if_neg h9]
    have h10 : (isTealPiece P = true ∧ isPurplePiece M = false) ∨
        (isPurplePiece P = true ∧ isTealPiece M = false) := by
      by_contra hx
      exact hnc (mkCapture h1 h2 h3 h4 h7 hx)
    rw [if_pos h10]
  · rw [if_neg h7]

lemma applyMove_reject {s : GameState} {sr sc tr tc : Int}
    (h : (applyMove s sr sc tr tc).accepted = false) :
    applyMove s sr sc tr tc = ⟨s, false, false⟩ := by
  by_cases hs : simpleOk s sr sc tr tc
  · rw [applyMove_simple s sr sc tr tc hs] at h
    rw [kinging_accepted] at h
    exact Bool.noConfusion h
  by_cases hc : captureOk s sr sc tr tc
  · rw [applyMove_capture s sr sc tr tc hc] at h
    rw [kinging_accepted] at h
    exact Bool.noConfusion h
  exact applyMove_rej s sr sc tr tc hs hc

/-- Acceptance condition of `applyMove`: a legal simple step or a legal
capture. -/
lemma applyMove_accepted_iff (s : GameState) (sr sc tr tc : Int) :
    (applyMove s sr sc tr tc).accepted = true ↔
      simpleOk s sr sc tr tc ∨ captureOk s sr sc tr tc := by
  constructor
  · intro h
    by_contra hno
    push_neg at hno
    rw [applyMove_rej s sr sc tr tc hno.1 hno.2] at h
    exact Bool.noConfusion h
  · rintro (h | h)
    · rw [applyMove_simple s sr sc tr tc h, kinging_accepted]
    · rw [applyMove_capture s sr sc tr tc h, kinging_accepted]

lemma applyMove_accepted_bounds {s : GameState} {sr sc tr tc : Int}
    (h : (applyMove s sr sc tr tc).accepted = true) :
    inBounds sr sc = true ∧ inBounds tr tc = true := by
  rcases (applyMove_accepted_iff s sr sc tr tc).mp h with hk | hk
  · exact ⟨hk.1, hk.2.1⟩
  · exact ⟨hk.1, hk.2.1⟩

lemma applyMove_dark_dest {s : GameState} {sr sc tr tc : Int}
    (h : (applyMove s sr sc tr tc).accepted = true) :
    isDarkSquare tr tc = true := by
  rcases (applyMove_accepted_iff s sr sc tr tc).mp h with hk | hk
  · exact hk.2.2.1
  · exact hk.2.2.1

lemma applyMove_wasCapture_simple {s : GameState} {sr sc tr tc : Int}
    (h : simpleOk s sr sc tr tc) :
    (applyMove s sr sc tr tc).wasCapture = false := by
  rw [applyMove_simple s sr sc tr tc h, kinging_wasCapture]

lemma applyMove_wasCapture_capture {s : GameState} {sr sc tr tc : Int}
    (h : captureOk s sr sc tr tc) :
    (applyMove s sr sc tr tc).wasCapture = true := by
  rw [applyMove_capture s sr sc tr tc h, kinging_wasCapture]

lemma not_simpleOk_of_captureOk {s : GameState} {sr sc tr tc : Int}
    (h : captureOk s sr sc tr tc) : ¬simpleOk s sr sc tr tc := by
  intro hs
  have h1 := hs.2.2.2.2.2.1
  have h2 := h.2.2.2.2.2.1
  omega

/-- Board contents after an accepted simple step: the moved (and possibly
promoted) piece on the destination, the source cleared, all else unchanged. -/
lemma applyMove_simple_board {s : GameState} {sr sc tr tc : Int}
    (h : simpleOk s sr sc tr tc) (i j : Fin 8) :
    (applyMove s sr sc tr tc).state.board i j =
      if (i.val : Int) = tr ∧ (j.val : Int) = tc then
        promoteVal (boardGet s.board sr sc) tr
      else if (i.val : Int) = sr ∧ (j.val : Int) = sc then Piece.Empty
      else s.board i j := by
  have hrow : (tr - sr).natAbs = 1 := h.2.2.2.2.2.2.1
  rw [applyMove_simple s sr sc tr tc h, kinging_board_point]
  simp only [boardSet_point]
  by_cases hd : (i.val : Int) = tr ∧ (j.val : Int) = tc
  · have hs0 : ¬((i.val : Int) = sr ∧ (j.val : Int) = sc) := by
      rintro ⟨e1, -⟩
      omega
    simp only [if_pos hd, if_neg hs0, promoteVal]
  · by_cases hs0 : (i.val : Int) = sr ∧ (j.val : Int) = sc
    · simp only [if_neg hd, if_pos hs0]
    · simp only [if_neg hd, if_neg hs0]

/-- Board contents after an accepted capture: the moved (and possibly
promoted) piece on the destination, source and midpoint cleared, all else
unchanged. -/
lemma applyMove_capture_board {s : GameState} {sr sc tr tc : Int}
    (h : captureOk s sr sc tr tc) (i j : Fin 8) :
    (applyMove s sr sc tr tc).state.board i j =
      if (i.val : Int) = tr ∧ (j.val : Int) = tc then
        promoteVal (boardGet s.board sr sc) tr
      else if (i.val : Int) = sr ∧ (j.val : Int) = sc then Piece.Empty
      else if (i.val : Int) = sr + (tr - sr) / 2 ∧ (j.val : Int) = sc + (tc - sc) / 2 then
        Piece.Empty
      else s.board i j := by
  have hrow : (tr - sr).natAbs = 2 := h.2.2.2.2.2.2.1
  rw [applyMove_capture s sr sc tr tc h, kinging_board_point]
  simp only [boardSet_point]
  by_cases hd : (i.val : Int) = tr ∧ (j.val : Int) = tc
  · have hs0 : ¬((i.val : Int) = sr ∧ (j.val : Int) = sc) := by
      rintro ⟨e1, -⟩
      omega
    simp only [if_pos hd, if_neg hs0, promoteVal]
  · by_cases hs0 : (i.val : Int) = sr ∧ (j.val : Int) = sc
    · simp only [if_neg hd, if_pos hs0]
    · by_cases hm : (i.val : Int) = sr + (tr - sr) / 2 ∧ (j.val : Int) = sc + (tc - sc) / 2
      · simp only [if_neg hd, if_neg hs0, if_pos hm]
      · simp only [if_neg hd, if_neg hs0, if_neg hm]

lemma kinging_board_eq (s1 s2 : GameState) (b : Board) (p : Piece) (tr tc : Int)
    (cap : Bool) :
    (kinging s1 b p tr tc cap).state.board = (kinging s2 b p tr tc cap).state.board := by
  rw [kinging, kinging]
  split_ifs <;> rfl

/-! Claim theorems. -/

/-- C1 (counterexample): on the fresh board, with teal recorded as the side
to move, `applyMove` nevertheless accepts the purple move (5,0) → (4,1) and
mutates the state: the rules engine does not consult `currentPlayer`. -/
theorem applyMove_accepts_nonmover_cex :
    initState.currentPlayer = Piece.TealMan ∧
    isPurplePiece (boardGet initState.board 5 0) = true ∧
    (applyMove initState 5 0 4 1).accepted = true ∧
    (applyMove initState 5 0 4 1).state ≠ initState := by
  decide

/-- C1 (amended): `applyMove` is independent of the recorded side to move —
its acceptance flag, capture flag and resulting board are unchanged under
any rewrite of `currentPlayer`, which itself passes through untouched; turn
enforcement is the orchestrator's concern, not the rules engine's. -/
theorem applyMove_turn_independent (s : GameState) (p : Piece) (sr sc tr tc : Int) :
    (applyMove { s with currentPlayer := p } sr sc tr tc).accepted
        = (applyMove s sr sc tr tc).accepted ∧
    (applyMove { s with currentPlayer := p } sr sc tr tc).wasCapture
        = (applyMove s sr sc tr tc).wasCapture ∧
    (applyMove { s with currentPlayer := p } sr sc tr tc).state.board
        = (applyMove s sr sc tr tc).state.board ∧
    (applyMove { s with currentPlayer := p } sr sc tr tc).state.currentPlayer = p := by
  have hb : ({ s with currentPlayer := p } : GameState).board = s.board := rfl
  by_cases hs : simpleOk s sr sc tr tc
  · have hs' : simpleOk { s with currentPlayer := p } sr sc tr tc := hs
    rw [applyMove_simple _ sr sc tr tc hs', applyMove_simple s sr sc tr tc hs]
    refine ⟨by rw [kinging_accepted, kinging_accepted], by rw [kinging_wasCapture, kinging_wasCapture], ?_, by rw [kinging_currentPlayer]⟩
    rw [hb]
    exact kinging_board_eq _ _ _ _ _ _ _
  by_cases hc : captureOk s sr sc tr tc
  · have hc' : captureOk { s with currentPlayer := p } sr sc tr tc := hc
    rw [applyMove_capture _ sr sc tr tc hc', applyMove_capture s sr sc tr tc hc]
    refine ⟨by rw [kinging_accepted, kinging_accepted], by rw [kinging_wasCapture, kinging_wasCapture], ?_, by rw [kinging_currentPlayer]⟩
    rw [hb]
    exact kinging_board_eq _ _ _ _ _ _ _
  · have hs' : ¬simpleOk { s with currentPlayer := p } sr sc tr tc := hs
    have hc' : ¬captureOk { s with currentPlayer := p } sr sc tr tc := hc
    rw [applyMove_rej _ sr sc tr tc hs' hc', applyMove_rej s sr sc tr tc hs hc]
    exact ⟨rfl, rfl, rfl, rfl⟩

/-- C2: whenever `applyMove` rejects a move, the state is returned exactly
as it was and the capture flag is false. -/
theorem applyMove_reject_no_mutation (s : GameState) (sr sc tr tc : Int)
    (h : (applyMove s sr sc tr tc).accepted = false) :
    (applyMove s sr sc tr tc).state = s ∧
    (applyMove s sr sc tr tc).wasCapture = false := by
  rw [applyMove_reject h]
  exact ⟨rfl, rfl⟩

/-- C2 (witness): the move (0,0) → (1,1) from an empty source square on the
fresh board is rejected without mutation. -/
theorem applyMove_reject_no_mutation_witness :
    (applyMove initState 0 0 1 1).accepted = false ∧
    (applyMove initState 0 0 1 1).state = initState ∧
    (applyMove initState 0 0 1 1).wasCapture = false :=
  ⟨by decide, (applyMove_reject_no_mutation initState 0 0 1 1 (by decide)).1,
   (applyMove_reject_no_mutation initState 0 0 1 1 (by decide)).2⟩

/-- C10: `initBoard` writes only the board array; the side to move and the
UI selection fields pass through it untouched. -/
theorem initBoard_frame (s : GameState) :
    (initBoard s).currentPlayer = s.currentPlayer ∧
    (initBoard s).selectedRow = s.selectedRow ∧
    (initBoard s).selectedCol = s.selectedCol :=
  ⟨rfl, rfl, rfl⟩

/-- C6: after `initBoard`, teal men sit on exactly the dark squares of rows
0–2, purple men on exactly the dark squares of rows 5–7, there are no kings,
every other square is empty, and the piece counts are 12 and 12. -/
theorem initBoard_layout (s : GameState) :
    (∀ r c : Fin 8,
      ((initBoard s).board r c = Piece.TealMan ↔ r.val < 3 ∧ (r.val + c.val) % 2 = 1) ∧
      ((initBoard s).board r c = Piece.PurpleMan ↔ 5 ≤ r.val ∧ (r.val + c.val) % 2 = 1) ∧
      (initBoard s).board r c ≠ Piece.TealKing ∧
      (initBoard s).board r c ≠ Piece.PurpleKing ∧
      ((initBoard s).board r c = Piece.Empty ↔
        ¬((r.val + c.val) % 2 = 1 ∧ (r.val < 3 ∨ 5 ≤ r.val)))) ∧
    countPieces (initBoard s) = (12, 12) := by
  have hb : (initBoard s).board = initState.board := rfl
  have hcp : countPieces (initBoard s) = countPieces initState := rfl
  rw [hb, hcp]
  exact ⟨by decide, by decide⟩

lemma initBoard_dark (s : GameState) (i j : Fin 8)
    (h : (initBoard s).board i j ≠ Piece.Empty) :
    isDarkSquare (i.val : Int) (j.val : Int) = true := by
  by_contra hd
  have hd' : isDarkSquare (i.val : Int) (j.val : Int) = false := bool_ne_true hd
  apply h
  show (if (i.val : Int) < 3 ∧ isDarkSquare (i.val : Int) (j.val : Int) = true then Piece.TealMan
    else if BOARD_SIZE - 3 ≤ (i.val : Int) ∧ isDarkSquare (i.val : Int) (j.val : Int) = true
    then Piece.PurpleMan else Piece.Empty) = Piece.Empty
  rw [if_neg, if_neg]
  · rintro ⟨-, hx⟩
    rw [hd'] at hx
    exact Bool.noConfusion hx
  · rintro ⟨-, hx⟩
    rw [hd'] at hx
    exact Bool.noConfusion hx

lemma applyMove_dark_preserved {s : GameState} {sr sc tr tc : Int}
    (hacc : (applyMove s sr sc tr tc).accepted = true)
    (hdark : ∀ i j : Fin 8, s.board i j ≠ Piece.Empty →
      isDarkSquare (i.val : Int) (j.val : Int) = true) :
    ∀ i j : Fin 8, (applyMove s sr sc tr tc).state.board i j ≠ Piece.Empty →
      isDarkSquare (i.val : Int) (j.val : Int) = true := by
  intro i j hne
  have hdd := applyMove_dark_dest hacc
  rcases (applyMove_accepted_iff s sr sc tr tc).mp hacc with hk | hk
  · rw [applyMove_simple_board hk i j] at hne
    by_cases hd : (i.val : Int) = tr ∧ (j.val : Int) = tc
    · rw [hd.1, hd.2]
      exact hdd
    · rw [if_neg hd] at hne
      by_cases hs0 : (i.val : Int) = sr ∧ (j.val : Int) = sc
      · rw [if_pos hs0] at hne
        exact absurd rfl hne
      · rw [if_neg hs0] at hne
        exact hdark i j hne
  · rw [applyMove_capture_board hk i j] at hne
    by_cases hd : (i.val : Int) = tr ∧ (j.val : Int) = tc
    · rw [hd.1, hd.2]
      exact hdd
    · rw [if_neg hd] at hne
      by_cases hs0 : (i.val : Int) = sr ∧ (j.val : Int) = sc
      · rw [if_pos hs0] at hne
        exact absurd rfl hne
      · rw [if_neg hs0] at hne
        by_cases hm : (i.val : Int) = sr + (tr - sr) / 2 ∧ (j.val : Int) = sc + (tc - sc) / 2
        · rw [if_pos hm] at hne
          exact absurd rfl hne
        · rw [if_neg hm] at hne
          exact hdark i j hne

/-- C5: in every state reachable from an initialised board through accepted
`applyMove` calls, every occupied square is dark; light squares stay empty. -/
theorem reachable_dark_invariant (s : GameState) (h : Reachable s) :
    ∀ r c : Fin 8, s.board r c ≠ Piece.Empty →
      isDarkSquare (r.val : Int) (c.val : Int) = true := by
  induction h with
  | init s0 => exact fun r c => initBoard_dark s0 r c
  | step s0 sr sc tr tc hre hacc ih => exact applyMove_dark_preserved hacc ih

/-- C5 (witness): on the fresh board the occupied square (0,1) is dark. -/
theorem reachable_dark_invariant_witness :
    initState.board 0 1 ≠ Piece.Empty ∧ isDarkSquare ((0 : Fin 8).val : Int) ((1 : Fin 8).val : Int) = true :=
  ⟨by decide, reachable_dark_invariant initState (Reachable.init emptyState) 0 1 (by decide)⟩

/-- The destination square after any accepted move holds the moved piece,
promoted exactly when the kinging rule fires. -/
lemma applyMove_dest {s : GameState} {sr sc tr tc : Int}
    (h : (applyMove s sr sc tr tc).accepted = true) :
    boardGet (applyMove s sr sc tr tc).state.board tr tc =
      promoteVal (boardGet s.board sr sc) tr := by
  rcases (applyMove_accepted_iff s sr sc tr tc).mp h with hk | hk
  · obtain ⟨i, j, hi, hj, heq⟩ :=
      boardGet_eq_of_inBounds (b := (applyMove s sr sc tr tc).state.board) hk.2.1
    rw [heq, applyMove_simple_board hk i j, if_pos ⟨hi, hj⟩]
  · obtain ⟨i, j, hi, hj, heq⟩ :=
      boardGet_eq_of_inBounds (b := (applyMove s sr sc tr tc).state.board) hk.2.1
    rw [heq, applyMove_capture_board hk i j, if_pos ⟨hi, hj⟩]

/-- C3: on two-step diagonals, `applyMove` accepts exactly the legal
captures, and an accepted capture clears midpoint and source, places the
(possibly promoted) piece on the destination, and reports a capture. -/
theorem applyMove_capture_charact (s : GameState) (sr sc tr tc : Int)
    (h2 : (tr - sr).natAbs = 2 ∧ (tc - sc).natAbs = 2) :
    ((applyMove s sr sc tr tc).accepted = true ↔
      inBounds sr sc = true ∧ inBounds tr tc = true ∧
      isDarkSquare tr tc = true ∧ boardGet s.board tr tc = Piece.Empty ∧
      boardGet s.board sr sc ≠ Piece.Empty ∧
      isAllowedDir (boardGet s.board sr sc) ((tr - sr) / 2) = true ∧
      ((isTealPiece (boardGet s.board sr sc) = true ∧
        isPurplePiece (boardGet s.board (sr + (tr - sr) / 2) (sc + (tc - sc) / 2)) = true) ∨
       (isPurplePiece (boardGet s.board sr sc) = true ∧
        isTealPiece (boardGet s.board (sr + (tr - sr) / 2) (sc + (tc - sc) / 2)) = true))) ∧
    ((applyMove s sr sc tr tc).accepted = true →
      boardGet (applyMove s sr sc tr tc).state.board
        (sr + (tr - sr) / 2) (sc + (tc - sc) / 2) = Piece.Empty ∧
      boardGet (applyMove s sr sc tr tc).state.board sr sc = Piece.Empty ∧
      boardGet (applyMove s sr sc tr tc).state.board tr tc =
        promoteVal (boardGet s.board sr sc) tr ∧
      (applyMove s sr sc tr tc).wasCapture = true) := by
  have hcap : (applyMove s sr sc tr tc).accepted = true ↔ captureOk s sr sc tr tc := by
    rw [applyMove_accepted_iff]
    constructor
    · rintro (hk | hk)
      · have := hk.2.2.2.2.2.2.1
        omega
      · exact hk
    · exact Or.inr
  constructor
  · rw [hcap]
    constructor
    · rintro ⟨c1, c2, c3, c4, c5, -, -, c8, c9⟩
      exact ⟨c1, c2, c3, c4, c5, c8, c9⟩
    · rintro ⟨c1, c2, c3, c4, c5, c8, c9⟩
      exact ⟨c1, c2, c3, c4, c5, h2.2, h2.1, c8, c9⟩
  · intro hacc
    have hk := hcap.mp hacc
    have hmb := mid_inBounds hk.1 hk.2.1 h2.1 h2.2
    have hsrcb := hk.1
    refine ⟨?_, ?_, applyMove_dest hacc, applyMove_wasCapture_capture hk⟩
    · obtain ⟨i, j, hi, hj, heq⟩ :=
        boardGet_eq_of_inBounds (b := (applyMove s sr sc tr tc).state.board) hmb
      rw [heq, applyMove_capture_board hk i j]
      have hd2 := h2.1
      rw [if_neg (by rintro ⟨e1, -⟩; omega), if_neg (by rintro ⟨e1, -⟩; omega),
        if_pos ⟨hi, hj⟩]
    · obtain ⟨i, j, hi, hj, heq⟩ :=
        boardGet_eq_of_inBounds (b := (applyMove s sr sc tr tc).state.board) hsrcb
      rw [heq, applyMove_capture_board hk i j]
      have hd2 := h2.1
      rw [if_neg (by rintro ⟨e1, -⟩; omega), if_pos ⟨hi, hj⟩]

/-- C3 (witness): teal man at (2,1) jumps the purple man at (3,2) and lands
on (4,3); the move is accepted, the midpoint is cleared and a capture is
reported. -/
theorem applyMove_capture_charact_witness :
    (applyMove captureState 2 1 4 3).accepted = true ∧
    boardGet (applyMove captureState 2 1 4 3).state.board 3 2 = Piece.Empty ∧
    (applyMove captureState 2 1 4 3).wasCapture = true := by
  have hpost := (applyMove_capture_charact captureState 2 1 4 3 (by decide)).2 (by decide)
  refine ⟨by decide, ?_, hpost.2.2.2⟩
  have hmid : ((2 : Int) + ((4 : Int) - 2) / 2) = 3 ∧ ((1 : Int) + ((3 : Int) - 1) / 2) = 2 := by
    decide
  rw [← hmid.1, ← hmid.2]
  exact hpost.1

/-- C4: promotion within the accepting `applyMove` call: a teal man landing
on the last row becomes a teal king, a purple man landing on row 0 becomes a
purple king, and a moved king keeps its type. -/
theorem applyMove_promotion (s : GameState) (sr sc tr tc : Int)
    (h : (applyMove s sr sc tr tc).accepted = true) :
    (boardGet s.board sr sc = Piece.TealMan ∧ tr = BOARD_SIZE - 1 →
      boardGet (applyMove s sr sc tr tc).state.board tr tc = Piece.TealKing) ∧
    (boardGet s.board sr sc = Piece.PurpleMan ∧ tr = 0 →
      boardGet (applyMove s sr sc tr tc).state.board tr tc = Piece.PurpleKing) ∧
    (pieceIsKing (boardGet s.board sr sc) = true →
      boardGet (applyMove s sr sc tr tc).state.board tr tc = boardGet s.board sr sc) ∧
    (boardGet s.board sr sc = Piece.TealMan ∧ tr ≠ BOARD_SIZE - 1 →
      boardGet (applyMove s sr sc tr tc).state.board tr tc = Piece.TealMan) ∧
    (boardGet s.board sr sc = Piece.PurpleMan ∧ tr ≠ 0 →
      boardGet (applyMove s sr sc tr tc).state.board tr tc = Piece.PurpleMan) := by
  rw [applyMove_dest h, promoteVal]
  refine ⟨?_, ?_, ?_, ?_, ?_⟩
  · intro hp
    rw [if_pos hp]
  · intro hp
    rw [if_neg (by rintro ⟨hx, -⟩; rw [hp.1] at hx; exact Piece.noConfusion hx), if_pos hp]
  · intro hp
    have h1 : boardGet s.board sr sc ≠ Piece.TealMan := by
      intro hx
      rw [hx] at hp
      exact Bool.noConfusion hp
    have h2 : boardGet s.board sr sc ≠ Piece.PurpleMan := by
      intro hx
      rw [hx] at hp
      exact Bool.noConfusion hp
    rw [if_neg (by rintro ⟨hx, -⟩; exact h1 hx), if_neg (by rintro ⟨hx, -⟩; exact h2 hx)]
  · intro hp
    rw [if_neg (by rintro ⟨-, hx⟩; exact hp.2 hx),
      if_neg (by rintro ⟨hx, -⟩; rw [hp.1] at hx; exact Piece.noConfusion hx)]
    exact hp.1
  · intro hp
    rw [if_neg (by rintro ⟨hx, -⟩; rw [hp.1] at hx; exact Piece.noConfusion hx),
      if_neg (by rintro ⟨-, hx⟩; exact hp.2 hx)]
    exact hp.1

/-- C4 (witness): the teal man at (6,5) moving to the empty dark square
(7,6) is accepted and promoted to a teal king by that same call. -/
theorem applyMove_promotion_witness :
    (applyMove promoState 6 5 7 6).accepted = true ∧
    boardGet promoState.board 6 5 = Piece.TealMan ∧
    boardGet (applyMove promoState 6 5 7 6).state.board 7 6 = Piece.TealKing :=
  ⟨by decide, by decide,
    (applyMove_promotion promoState 6 5 7 6 (by decide)).1 ⟨by decide, by decide⟩⟩

lemma exists_fin_of_inBounds {r c : Int} (h : inBounds r c = true) :
    ∃ i j : Fin 8, (i.val : Int) = r ∧ (j.val : Int) = c := by
  rw [inBounds_iff] at h
  exact ⟨⟨r.toNat, by omega⟩, ⟨c.toNat, by omega⟩, by simp; omega, by simp; omega⟩

lemma isAllowedDir_cases {p : Piece} {d : Int} (h : isAllowedDir p d = true) :
    d = pieceForward p ∨ (pieceIsKing p = true ∧ d = -pieceForward p) := by
  rw [isAllowedDir] at h
  split_ifs at h with e1 e2
  · exact Or.inl e1
  · exact Or.inr e2

lemma candidate_any {s : GameState} {r c : Fin 8} (dcv stepv dirSignv : Int)
    (hdc : dcv ∈ [(-2 : Int), -1, 1, 2]) (hstep : stepv ∈ [(1 : Int), 2])
    (hsign : dirSignv ∈ [(1 : Int), -1])
    (hskip : ¬(pieceIsKing (s.board r c) = false ∧
        stepv * dirSignv ≠ pieceForward (s.board r c) ∧
        stepv * dirSignv ≠ 2 * pieceForward (s.board r c)))
    (hacc : (applyMove s (r.val : Int) (c.val : Int) ((r.val : Int) + stepv * dirSignv)
        ((c.val : Int) + (if 0 < dcv then stepv else -stepv))).accepted = true) :
    (([(-2 : Int), -1, 1, 2]).any fun dc =>
      ([(1 : Int), 2]).any fun step =>
        ([(1 : Int), -1]).any fun dirSign =>
          if pieceIsKing (s.board r c) = false ∧
              step * dirSign ≠ pieceForward (s.board r c) ∧
              step * dirSign ≠ 2 * pieceForward (s.board r c) then false
          else
            (applyMove s (r.val : Int) (c.val : Int) ((r.val : Int) + step * dirSign)
              ((c.val : Int) + (if 0 < dc then step else -step))).accepted) = true := by
  simp only [List.any_eq_true]
  exact ⟨dcv, hdc, stepv, hstep, dirSignv, hsign, by rw [if_neg hskip]; exact hacc⟩

/-- C7: `hasAnyMoves` agrees exactly with exhaustive trial of every
in-bounds source and destination through `applyMove`: it returns true iff
some square holding a piece of the queried side has some accepted move. -/
theorem hasAnyMoves_iff_exhaustive (s : GameState) (player : Piece)
    (hp : isTealPiece player = true ∨ isPurplePiece player = true) :
    hasAnyMoves s player = true ↔
      ∃ sr sc tr tc : Fin 8,
        ((isTealPiece player = true ∧ isTealPiece (s.board sr sc) = true) ∨
         (isPurplePiece player = true ∧ isPurplePiece (s.board sr sc) = true)) ∧
        (applyMove s (sr.val : Int) (sc.val : Int)
          (tr.val : Int) (tc.val : Int)).accepted = true := by
  constructor
  · intro h
    simp only [hasAnyMoves, List.any_eq_true] at h
    obtain ⟨r, -, c, -, hbody⟩ := h
    by_cases h1 : s.board r c = Piece.Empty
    · rw [if_pos h1] at hbody
      exact Bool.noConfusion hbody
    rw [if_neg h1] at hbody
    by_cases hf2 : isTealPiece player = true ∧ isTealPiece (s.board r c) = false
    · rw [if_pos hf2] at hbody
      exact Bool.noConfusion hbody
    rw [if_neg hf2] at hbody
    by_cases hf3 : isPurplePiece player = true ∧ isPurplePiece (s.board r c) = false
    · rw [if_pos hf3] at hbody
      exact Bool.noConfusion hbody
    rw [if_neg hf3] at hbody
    simp only [List.any_eq_true] at hbody
    obtain ⟨dc, -, step, -, dirSign, -, hinner⟩ := hbody
    by_cases hskip : pieceIsKing (s.board r c) = false ∧
        step * dirSign ≠ pieceForward (s.board r c) ∧
        step * dirSign ≠ 2 * pieceForward (s.board r c)
    · rw [if_pos hskip] at hinner
      exact Bool.noConfusion hinner
    rw [if_neg hskip] at hinner
    obtain ⟨i, j, hi, hj⟩ := exists_fin_of_inBounds (applyMove_accepted_bounds hinner).2
    rw [← hi, ← hj] at hinner
    refine ⟨r, c, i, j, ?_, hinner⟩
    rcases hp with hpt | hpp
    · exact Or.inl ⟨hpt, bool_ne_false fun hx => hf2 ⟨hpt, hx⟩⟩
    · exact Or.inr ⟨hpp, bool_ne_false fun hx => hf3 ⟨hpp, hx⟩⟩
  · rintro ⟨sr, sc, tr, tc, hside, hacc⟩
    have hne : s.board sr sc ≠ Piece.Empty := by
      rcases hside with ⟨-, hq⟩ | ⟨-, hq⟩
      · exact teal_ne_empty hq
      · exact purple_ne_empty hq
    have hno2 : ¬(isTealPiece player = true ∧ isTealPiece (s.board sr sc) = false) := by
      rintro ⟨hpt, hx⟩
      rcases hside with ⟨-, hq⟩ | ⟨hpq, -⟩
      · rw [hq] at hx
        exact Bool.noConfusion hx
      · rw [purple_not_teal hpq] at hpt
        exact Bool.noConfusion hpt
    have hno3 : ¬(isPurplePiece player = true ∧ isPurplePiece (s.board sr sc) = false) := by
      rintro ⟨hpt, hx⟩
      rcases hside with ⟨hpq, -⟩ | ⟨-, hq⟩
      · rw [teal_not_purple hpq] at hpt
        exact Bool.noConfusion hpt
      · rw [hq] at hx
        exact Bool.noConfusion hx
    simp only [hasAnyMoves, List.any_eq_true]
    refine ⟨sr, List.mem_finRange sr, sc, List.mem_finRange sc, ?_⟩
    rw [if_neg hne, if_neg hno2, if_neg hno3]
    have hbgr : boardGet s.board (sr.val : Int) (sc.val : Int) = s.board sr sc :=
      boardGet_fin s.board sr sc
    rcases (applyMove_accepted_iff s (sr.val : Int) (sc.val : Int)
        (tr.val : Int) (tc.val : Int)).mp hacc with hk | hk
    · have hn1 : ((tr.val : Int) - (sr.val : Int)).natAbs = 1 := hk.2.2.2.2.2.2.1
      have hn2 : ((tc.val : Int) - (sc.val : Int)).natAbs = 1 := hk.2.2.2.2.2.1
      have hall : isAllowedDir (s.board sr sc) ((tr.val : Int) - (sr.val : Int)) = true := by
        rw [← hbgr]
        exact hk.2.2.2.2.2.2.2
      have hprod : 1 * (if 0 < (tr.val : Int) - (sr.val : Int) then (1 : Int) else -1) =
          (tr.val : Int) - (sr.val : Int) := by
        by_cases hpos : 0 < (tr.val : Int) - (sr.val : Int)
        · rw [if_pos hpos]; omega
        · rw [if_neg hpos]; omega
      refine candidate_any ((tc.val : Int) - (sc.val : Int)) 1
        (if 0 < (tr.val : Int) - (sr.val : Int) then 1 else -1) ?_ (by decide) ?_ ?_ ?_
      · have : (tc.val : Int) - (sc.val : Int) = 1 ∨ (tc.val : Int) - (sc.val : Int) = -1 := by
          omega
        rcases this with hq | hq <;> rw [hq] <;> decide
      · by_cases hpos : 0 < (tr.val : Int) - (sr.val : Int)
        · rw [if_pos hpos]; decide
        · rw [if_neg hpos]; decide
      · rintro ⟨hnk, hne1, -⟩
        rw [hprod] at hne1
        rcases isAllowedDir_cases hall with he | he
        · exact hne1 he
        · rw [he.1] at hnk
          exact Bool.noConfusion hnk
      · have e1 : (sr.val : Int) + 1 * (if 0 < (tr.val : Int) - (sr.val : Int)
            then (1 : Int) else -1) = (tr.val : Int) := by
          rw [hprod]; omega
        have e2 : (sc.val : Int) + (if 0 < (tc.val : Int) - (sc.val : Int)
            then (1 : Int) else -1) = (tc.val : Int) := by
          by_cases hpos : 0 < (tc.val : Int) - (sc.val : Int)
          · rw [if_pos hpos]; omega
          · rw [if_neg hpos]; omega
        rw [e1, e2]
        exact hacc
    · have hn1 : ((tr.val : Int) - (sr.val : Int)).natAbs = 2 := hk.2.2.2.2.2.2.1
      have hn2 : ((tc.val : Int) - (sc.val : Int)).natAbs = 2 := hk.2.2.2.2.2.1
      have hall : isAllowedDir (s.board sr sc)
          (((tr.val : Int) - (sr.val : Int)) / 2) = true := by
        rw [← hbgr]
        exact hk.2.2.2.2.2.2.2.1
      have hprod : 2 * (if 0 < (tr.val : Int) - (sr.val : Int) then (1 : Int) else -1) =
          (tr.val : Int) - (sr.val : Int) := by
        by_cases hpos : 0 < (tr.val : Int) - (sr.val : Int)
        · rw [if_pos hpos]; omega
        · rw [if_neg hpos]; omega
      refine candidate_any ((tc.val : Int) - (sc.val : Int)) 2
        (if 0 < (tr.val : Int) - (sr.val : Int) then 1 else -1) ?_ (by decide) ?_ ?_ ?_
      · have : (tc.val : Int) - (sc.val : Int) = 2 ∨ (tc.val : Int) - (sc.val : Int) = -2 := by
          omega
        rcases this with hq | hq <;> rw [hq] <;> decide
      · by_cases hpos : 0 < (tr.val : Int) - (sr.val : Int)
        · rw [if_pos hpos]; decide
        · rw [if_neg hpos]; decide
      · rintro ⟨hnk, -, hne2⟩
        rw [hprod] at hne2
        rcases isAllowedDir_cases hall with he | he
        · exact hne2 (by omega)
        · rw [he.1] at hnk
          exact Bool.noConfusion hnk
      · have e1 : (sr.val : Int) + 2 * (if 0 < (tr.val : Int) - (sr.val : Int)
            then (1 : Int) else -1) = (tr.val : Int) := by
          rw [hprod]; omega
        have e2 : (sc.val : Int) + (if 0 < (tc.val : Int) - (sc.val : Int)
            then (2 : Int) else -2) = (tc.val : Int) := by
          by_cases hpos : 0 < (tc.val : Int) - (sc.val : Int)
          · rw [if_pos hpos]; omega
          · rw [if_neg hpos]; omega
        rw [e1, e2]
        exact hacc

/-- C7 (witness): on the fresh board, teal has a move, and the exhaustive
existence statement follows through the equivalence. -/
theorem hasAnyMoves_iff_exhaustive_witness :
    hasAnyMoves initState Piece.TealMan = true ∧
    ∃ sr sc tr tc : Fin 8,
      ((isTealPiece Piece.TealMan = true ∧ isTealPiece (initState.board sr sc) = true) ∨
       (isPurplePiece Piece.TealMan = true ∧ isPurplePiece (initState.board sr sc) = true)) ∧
      (applyMove initState (sr.val : Int) (sc.val : Int)
        (tr.val : Int) (tc.val : Int)).accepted = true :=
  ⟨by decide,
    (hasAnyMoves_iff_exhaustive initState Piece.TealMan (Or.inl (by decide))).mp (by decide)⟩

/-! The AI move list: soundness and completeness of the enumeration. -/

lemma purpleMoves_sound {s : GameState} {m : Move} (h : m ∈ purpleMoves s) :
    ∃ r c : Fin 8, m.sr = (r.val : Int) ∧ m.sc = (c.val : Int) ∧
      (s.board r c = Piece.PurpleMan ∨ s.board r c = Piece.PurpleKing) ∧
      (applyMove s m.sr m.sc m.tr m.tc).accepted = true ∧
      m.isCapture = (applyMove s m.sr m.sc m.tr m.tc).wasCapture := by
  simp only [purpleMoves, List.mem_flatMap] at h
  obtain ⟨r, -, c, -, h⟩ := h
  by_cases hp : s.board r c = Piece.PurpleMan ∨ s.board r c = Piece.PurpleKing
  · rw [if_pos hp] at h
    simp only [List.mem_flatMap] at h
    obtain ⟨dr, -, dc, -, h⟩ := h
    by_cases hacc : (applyMove s (r.val : Int) (c.val : Int)
        ((r.val : Int) + dr) ((c.val : Int) + dc)).accepted = true
    · rw [if_pos hacc] at h
      have hm := List.mem_singleton.mp h
      subst hm
      exact ⟨r, c, rfl, rfl, hp, hacc, rfl⟩
    · rw [if_neg hacc] at h
      exact absurd h (List.not_mem_nil _)
  · rw [if_neg hp] at h
    exact absurd h (List.not_mem_nil _)

lemma applyMove_accepted_deltas {s : GameState} {sr sc tr tc : Int}
    (h : (applyMove s sr sc tr tc).accepted = true) :
    ((tr - sr).natAbs = 1 ∨ (tr - sr).natAbs = 2) ∧
    ((tc - sc).natAbs = 1 ∨ (tc - sc).natAbs = 2) := by
  rcases (applyMove_accepted_iff s sr sc tr tc).mp h with hk | hk
  · exact ⟨Or.inl hk.2.2.2.2.2.2.1, Or.inl hk.2.2.2.2.2.1⟩
  · exact ⟨Or.inr hk.2.2.2.2.2.2.1, Or.inr hk.2.2.2.2.2.1⟩

lemma purpleMoves_complete {s : GameState} {sr sc tr tc : Fin 8}
    (hp : s.board sr sc = Piece.PurpleMan ∨ s.board sr sc = Piece.PurpleKing)
    (hacc : (applyMove s (sr.val : Int) (sc.val : Int)
      (tr.val : Int) (tc.val : Int)).accepted = true) :
    (⟨(sr.val : Int), (sc.val : Int), (tr.val : Int), (tc.val : Int),
      (applyMove s (sr.val : Int) (sc.val : Int)
        (tr.val : Int) (tc.val : Int)).wasCapture⟩ : Move) ∈ purpleMoves s := by
  have hdel := applyMove_accepted_deltas hacc
  have hmemr : ((tr.val : Int) - (sr.val : Int)) ∈ [(-2 : Int), -1, 1, 2] := by
    have : (tr.val : Int) - (sr.val : Int) = -2 ∨ (tr.val : Int) - (sr.val : Int) = -1 ∨
        (tr.val : Int) - (sr.val : Int) = 1 ∨ (tr.val : Int) - (sr.val : Int) = 2 := by
      omega
    rcases this with hq | hq | hq | hq <;> rw [hq] <;> decide
  have hmemc : ((tc.val : Int) - (sc.val : Int)) ∈ [(-2 : Int), -1, 1, 2] := by
    have : (tc.val : Int) - (sc.val : Int) = -2 ∨ (tc.val : Int) - (sc.val : Int) = -1 ∨
        (tc.val : Int) - (sc.val : Int) = 1 ∨ (tc.val : Int) - (sc.val : Int) = 2 := by
      omega
    rcases this with hq | hq | hq | hq <;> rw [hq] <;> decide
  simp only [purpleMoves, List.mem_flatMap]
  refine ⟨sr, List.mem_finRange sr, sc, List.mem_finRange sc, ?_⟩
  rw [if_pos hp]
  simp only [List.mem_flatMap]
  refine ⟨(tr.val : Int) - (sr.val : Int), hmemr,
    (tc.val : Int) - (sc.val : Int), hmemc, ?_⟩
  have e1 : (sr.val : Int) + ((tr.val : Int) - (sr.val : Int)) = (tr.val : Int) := by ring
  have e2 : (sc.val : Int) + ((tc.val : Int) - (sc.val : Int)) = (tc.val : Int) := by ring
  rw [e1, e2, if_pos hacc]
  exact List.mem_singleton.mpr rfl

lemma purpleMoves_nil_iff (s : GameState) :
    purpleMoves s = [] ↔ ¬purpleHasLegalMove s := by
  constructor
  · intro h hlegal
    obtain ⟨sr, sc, tr, tc, hp, hacc⟩ := hlegal
    have hmem := purpleMoves_complete hp hacc
    rw [h] at hmem
    exact List.not_mem_nil _ hmem
  · intro h
    by_contra hne
    obtain ⟨m, hm⟩ := List.exists_mem_of_ne_nil _ hne
    obtain ⟨r, c, hsr, hsc, hp, hacc, -⟩ := purpleMoves_sound hm
    obtain ⟨i, j, hi, hj⟩ := exists_fin_of_inBounds (applyMove_accepted_bounds hacc).2
    apply h
    refine ⟨r, c, i, j, hp, ?_⟩
    rw [hsr, hsc] at hacc
    rw [hi, hj]
    exact hacc

lemma getD_mem {l : List Move} (hne : l ≠ []) (i : Nat) :
    l.getD (i % l.length) dummyMove ∈ l := by
  have hlen : 0 < l.length := List.length_pos.mpr hne
  have hidx : i % l.length < l.length := Nat.mod_lt _ hlen
  rw [List.getD_eq_getElem l dummyMove hidx]
  exact List.getElem_mem hidx

/-! Score bounds: every position evaluation fits far above the `INT_MIN`
sentinel, so the best-score scan always retains at least one move. -/

lemma foldl_pair_bounds {α : Type} (f : Int × Int → α → Int × Int) (k : Int)
    (hf : ∀ acc a, acc.1 ≤ (f acc a).1 ∧ (f acc a).1 ≤ acc.1 + k ∧
      acc.2 ≤ (f acc a).2 ∧ (f acc a).2 ≤ acc.2 + k) :
    ∀ (l : List α) (acc : Int × Int),
      acc.1 ≤ (l.foldl f acc).1 ∧ (l.foldl f acc).1 ≤ acc.1 + k * l.length ∧
      acc.2 ≤ (l.foldl f acc).2 ∧ (l.foldl f acc).2 ≤ acc.2 + k * l.length := by
  intro l
  induction l with
  | nil => intro acc; simp
  | cons a l ih =>
    intro acc
    have h1 := hf acc a
    have h2 := ih (f acc a)
    simp only [List.foldl_cons, List.length_cons]
    have e1 : k * ((l.length : Int) + 1) = k * (l.length : Int) + k := by ring
    push_cast
    rw [e1]
    push_cast at h2
    omega

lemma countPieces_bounds (s : GameState) :
    0 ≤ (countPieces s).1 ∧ (countPieces s).1 ≤ 64 ∧
    0 ≤ (countPieces s).2 ∧ (countPieces s).2 ≤ 64 := by
  have hinner : ∀ r : Fin 8, ∀ acc : Int × Int,
      acc.1 ≤ ((List.finRange 8).foldl
        (fun acc2 c =>
          if isTealPiece (s.board r c) = true then (acc2.1 + 1, acc2.2)
          else if isPurplePiece (s.board r c) = true then (acc2.1, acc2.2 + 1)
          else acc2) acc).1 ∧
      ((List.finRange 8).foldl
        (fun acc2 c =>
          if isTealPiece (s.board r c) = true then (acc2.1 + 1, acc2.2)
          else if isPurplePiece (s.board r c) = true then (acc2.1, acc2.2 + 1)
          else acc2) acc).1 ≤ acc.1 + 8 ∧
      acc.2 ≤ ((List.finRange 8).foldl
        (fun acc2 c =>
          if isTealPiece (s.board r c) = true then (acc2.1 + 1, acc2.2)
          else if isPurplePiece (s.board r c) = true then (acc2.1, acc2.2 + 1)
          else acc2) acc).2 ∧
      ((List.finRange 8).foldl
        (fun acc2 c =>
          if isTealPiece (s.board r c) = true then (acc2.1 + 1, acc2.2)
          else if isPurplePiece (s.board r c) = true then (acc2.1, acc2.2 + 1)
          else acc2) acc).2 ≤ acc.2 + 8 := by
    intro r acc
    have h := foldl_pair_bounds
      (fun acc2 c =>
        if isTealPiece (s.board r c) = true then (acc2.1 + 1, acc2.2)
        else if isPurplePiece (s.board r c) = true then (acc2.1, acc2.2 + 1)
        else acc2) 1
      (by
        intro acc2 c
        dsimp only
        split_ifs <;> simp <;> omega)
      (List.finRange 8) acc
    have hlen : ((List.finRange 8).length : Int) = 8 := by decide
    rw [hlen] at h
    omega
  have houter := foldl_pair_bounds
    (fun acc r =>
      (List.finRange 8).foldl
        (fun acc2 c =>
          if isTealPiece (s.board r c) = true then (acc2.1 + 1, acc2.2)
          else if isPurplePiece (s.board r c) = true then (acc2.1, acc2.2 + 1)
          else acc2) acc) 8
    (fun acc r => hinner r acc) (List.finRange 8) (0, 0)
  have hlen : ((List.finRange 8).length : Int) = 8 := by decide
  rw [hlen] at houter
  rw [countPieces]
  constructor
  · exact houter.1
  constructor
  · calc ((List.finRange 8).foldl _ (0, 0)).1 ≤ (0 : Int) + 8 * 8 := houter.2.1
      _ = 64 := by norm_num
  constructor
  · exact houter.2.2.1
  · calc ((List.finRange 8).foldl _ (0, 0)).2 ≤ (0 : Int) + 8 * 8 := houter.2.2.2
      _ = 64 := by norm_num

lemma moveScore_gt_INT_MIN (s : GameState) (m : Move) : INT_MIN < moveScore s m := by
  have hb := countPieces_bounds (applyMove s m.sr m.sc m.tr m.tc).state
  have hmin : INT_MIN = -2147483648 := by decide
  rw [moveScore, evaluatePosition, hmin]
  split_ifs <;> omega

lemma bestFold_go (s : GameState) (P : List Move) :
    ∀ (l : List Move) (acc : Int × List Move),
      (∀ m ∈ acc.2, moveScore s m = acc.1) →
      (∀ m ∈ acc.2, m ∈ P) →
      (∀ m ∈ l, m ∈ P) →
      (∀ m ∈ (l.foldl
          (fun acc m =>
            if moveScore s m > acc.1 then (moveScore s m, [m])
            else if moveScore s m = acc.1 then (acc.1, acc.2 ++ [m])
            else acc) acc).2,
        moveScore s m = (l.foldl
          (fun acc m =>
            if moveScore s m > acc.1 then (moveScore s m, [m])
            else if moveScore s m = acc.1 then (acc.1, acc.2 ++ [m])
            else acc) acc).1) ∧
      (∀ m ∈ (l.foldl
          (fun acc m =>
            if moveScore s m > acc.1 then (moveScore s m, [m])
            else if moveScore s m = acc.1 then (acc.1, acc.2 ++ [m])
            else acc) acc).2, m ∈ P) ∧
      acc.1 ≤ (l.foldl
          (fun acc m =>
            if moveScore s m > acc.1 then (moveScore s m, [m])
            else if moveScore s m = acc.1 then (acc.1, acc.2 ++ [m])
            else acc) acc).1 ∧
      (∀ m ∈ l, moveScore s m ≤ (l.foldl
          (fun acc m =>
            if moveScore s m > acc.1 then (moveScore s m, [m])
            else if moveScore s m = acc.1 then (acc.1, acc.2 ++ [m])
            else acc) acc).1) ∧
      ((l.foldl
          (fun acc m =>
            if moveScore s m > acc.1 then (moveScore s m, [m])
            else if moveScore s m = acc.1 then (acc.1, acc.2 ++ [m])
            else acc) acc).2 = [] →
        acc.2 = [] ∧ ∀ m ∈ l, moveScore s m < acc.1) := by
  intro l
  induction l with
  | nil =>
    intro acc h1 h2 h3
    exact ⟨h1, h2, le_refl _, by simp, fun hx => ⟨hx, by simp⟩⟩
  | cons a l ih =>
    intro acc h1 h2 h3
    simp only [List.foldl_cons]
    by_cases hgt : moveScore s a > acc.1
    · rw [if_pos hgt]
      have hstep := ih (moveScore s a, [a])
        (by
          intro m hm
          rw [List.mem_singleton.mp hm])
        (by
          intro m hm
          rw [List.mem_singleton.mp hm]
          exact h3 a (List.mem_cons_self a l))
        (fun m hm => h3 m (List.mem_cons_of_mem a hm))
      refine ⟨hstep.1, hstep.2.1, le_of_lt (lt_of_lt_of_le hgt hstep.2.2.1), ?_, ?_⟩
      · intro m hm
        rcases List.mem_cons.mp hm with hm | hm
        · rw [hm]
          exact hstep.2.2.1
        · exact hstep.2.2.2.1 m hm
      · intro hempty
        obtain ⟨hx, -⟩ := hstep.2.2.2.2 hempty
        exact absurd hx (by simp)
    · rw [if_neg hgt]
      by_cases heq : moveScore s a = acc.1
      · rw [if_pos heq]
        have hstep := ih (acc.1, acc.2 ++ [a])
          (by
            intro m hm
            rcases List.mem_append.mp hm with hm | hm
            · exact h1 m hm
            · rw [List.mem_singleton.mp hm]
              exact heq)
          (by
            intro m hm
            rcases List.mem_append.mp hm with hm | hm
            · exact h2 m hm
            · rw [List.mem_singleton.mp hm]
              exact h3 a (List.mem_cons_self a l))
          (fun m hm => h3 m (List.mem_cons_of_mem a hm))
        refine ⟨hstep.1, hstep.2.1, hstep.2.2.1, ?_, ?_⟩
        · intro m hm
          rcases List.mem_cons.mp hm with hm | hm
          · rw [hm, heq]
            exact hstep.2.2.1
          · exact hstep.2.2.2.1 m hm
        · intro hempty
          obtain ⟨hx, -⟩ := hstep.2.2.2.2 hempty
          exact absurd hx (by simp)
      · rw [if_neg heq]
        have hstep := ih acc h1 h2 (fun m hm => h3 m (List.mem_cons_of_mem a hm))
        refine ⟨hstep.1, hstep.2.1, hstep.2.2.1, ?_, ?_⟩
        · intro m hm
          rcases List.mem_cons.mp hm with hm | hm
          · rw [hm]
            exact le_of_lt (lt_of_lt_of_le (lt_of_le_of_ne (le_of_not_lt hgt) heq)
              hstep.2.2.1)
          · exact hstep.2.2.2.1 m hm
        · intro hempty
          obtain ⟨hx, hall⟩ := hstep.2.2.2.2 hempty
          refine ⟨hx, ?_⟩
          intro m hm
          rcases List.mem_cons.mp hm with hm | hm
          · rw [hm]
            exact lt_of_le_of_ne (le_of_not_lt hgt) heq
          · exact hall m hm

lemma bestFold_spec (s : GameState) (moves : List Move) (hne : moves ≠ []) :
    (bestFold s moves).2 ≠ [] ∧
    (∀ m ∈ (bestFold s moves).2, m ∈ moves) ∧
    (∀ m ∈ (bestFold s moves).2, moveScore s m = (bestFold s moves).1) ∧
    (∀ m ∈ moves, moveScore s m ≤ (bestFold s moves).1) := by
  have h := bestFold_go s moves moves (INT_MIN, [])
    (by simp) (by simp) (fun m hm => hm)
  refine ⟨?_, h.2.1, h.1, h.2.2.2.1⟩
  intro hempty
  obtain ⟨-, hall⟩ := h.2.2.2.2 hempty
  obtain ⟨m, hm⟩ := List.exists_mem_of_ne_nil _ hne
  have hlt := hall m hm
  have hgt := moveScore_gt_INT_MIN s m
  omega

/-- C8: `chooseMove` returns no move exactly when purple has no legal move,
and any returned move starts from a purple piece and is accepted by
`applyMove` — for every outcome of the random draws. -/
theorem chooseMove_sound_complete (s : GameState) (coin : Bool) (bestIdx allIdx : Nat) :
    (chooseMove s coin bestIdx allIdx = none ↔ ¬purpleHasLegalMove s) ∧
    (∀ m : Move, chooseMove s coin bestIdx allIdx = some m →
      (∃ r c : Fin 8, m.sr = (r.val : Int) ∧ m.sc = (c.val : Int) ∧
        (s.board r c = Piece.PurpleMan ∨ s.board r c = Piece.PurpleKing)) ∧
      (applyMove s m.sr m.sc m.tr m.tc).accepted = true) := by
  constructor
  · by_cases hnil : purpleMoves s = []
    · rw [chooseMove, if_pos hnil]
      exact iff_of_true rfl ((purpleMoves_nil_iff s).mp hnil)
    · rw [chooseMove, if_neg hnil]
      have hlegal : purpleHasLegalMove s := by
        by_contra hno
        exact hnil ((purpleMoves_nil_iff s).mpr hno)
      split_ifs <;> exact iff_of_false (by simp) (not_not.mpr hlegal)
  · intro m hm
    by_cases hnil : purpleMoves s = []
    · rw [chooseMove, if_pos hnil] at hm
      exact Option.noConfusion hm
    · rw [chooseMove, if_neg hnil] at hm
      have hmm : m ∈ purpleMoves s := by
        split_ifs at hm with hbest
        · have heq := Option.some.inj hm
          have hmem : m ∈ (bestFold s (purpleMoves s)).2 := by
            rw [← heq]
            exact getD_mem hbest.1 bestIdx
          exact (bestFold_spec s (purpleMoves s) hnil).2.1 m hmem
        · have heq := Option.some.inj hm
          rw [← heq]
          exact getD_mem hnil allIdx
      obtain ⟨r, c, h1, h2, h3, h4, -⟩ := purpleMoves_sound hmm
      exact ⟨⟨r, c, h1, h2, h3⟩, h4⟩

/-- C8 (witness): on the fresh board `chooseMove` finds a move and that move
is accepted by `applyMove`. -/
theorem chooseMove_sound_complete_witness :
    ∃ m : Move, chooseMove initState true 0 0 = some m ∧
      (applyMove initState m.sr m.sc m.tr m.tc).accepted = true := by
  have h := (chooseMove_sound_complete initState true 0 0).2
  have hsome : chooseMove initState true 0 0 =
      some ⟨(5 : Int), 0, 4, 1, false⟩ := by decide
  exact ⟨⟨(5 : Int), 0, 4, 1, false⟩, hsome, (h _ hsome).2⟩

/-- C9: with the hard preset (`optimalMoveChance = 1`), for every draw of
the uniform value in `[0,1)` and every index draw, the spec-modelled
selector returns a legal purple move whose score — position evaluation
after the move plus the capture bonus — attains the maximum over all legal
purple moves. -/
theorem chooseMoveChance_hard_optimal (s : GameState) (q : ℚ) (bestIdx allIdx : Nat)
    (h0 : 0 ≤ q) (h1 : q < 1) (hlegal : purpleHasLegalMove s) :
    ∃ m : Move, chooseMoveChance s 1 q bestIdx allIdx = some m ∧
      m ∈ purpleMoves s ∧
      (applyMove s m.sr m.sc m.tr m.tc).accepted = true ∧
      moveScore s m = scoreOf s m.sr m.sc m.tr m.tc ∧
      (∀ sr sc tr tc : Fin 8,
        (s.board sr sc = Piece.PurpleMan ∨ s.board sr sc = Piece.PurpleKing) →
        (applyMove s (sr.val : Int) (sc.val : Int)
          (tr.val : Int) (tc.val : Int)).accepted = true →
        scoreOf s (sr.val : Int) (sc.val : Int) (tr.val : Int) (tc.val : Int) ≤
          moveScore s m) := by
  have hnil : purpleMoves s ≠ [] := fun hx => (purpleMoves_nil_iff s).mp hx hlegal
  have hspec := bestFold_spec s (purpleMoves s) hnil
  rw [chooseMoveChance, if_neg hnil, if_pos ⟨h1, hspec.1⟩]
  have hmemB : (bestFold s (purpleMoves s)).2.getD
      (bestIdx % (bestFold s (purpleMoves s)).2.length) dummyMove ∈
      (bestFold s (purpleMoves s)).2 := getD_mem hspec.1 bestIdx
  have hmemA := hspec.2.1 _ hmemB
  obtain ⟨r, c, e1, e2, hp, hacc, hcapeq⟩ := purpleMoves_sound hmemA
  refine ⟨_, rfl, hmemA, hacc, ?_, ?_⟩
  · rw [moveScore, scoreOf, hcapeq]
  · intro sr sc tr tc hps hacc2
    have hmem' := purpleMoves_complete hps hacc2
    have hle := hspec.2.2.2 _ hmem'
    have hbest := hspec.2.2.1 _ hmemB
    calc scoreOf s (sr.val : Int) (sc.val : Int) (tr.val : Int) (tc.val : Int)
        = moveScore s ⟨(sr.val : Int), (sc.val : Int), (tr.val : Int), (tc.val : Int),
            (applyMove s (sr.val : Int) (sc.val : Int)
              (tr.val : Int) (tc.val : Int)).wasCapture⟩ := by
          rw [moveScore, scoreOf]
      _ ≤ (bestFold s (purpleMoves s)).1 := hle
      _ = moveScore s _ := hbest.symm

/-- C9 (witness): on the fresh board, with the hard preset and the draw 0,
the spec-modelled selector returns a member of the purple move list. -/
theorem chooseMoveChance_hard_optimal_witness :
    ∃ m : Move, chooseMoveChance initState 1 0 0 0 = some m ∧ m ∈ purpleMoves initState := by
  obtain ⟨m, hsome, hmem, -⟩ := chooseMoveChance_hard_optimal initState 0 0 0
    (by norm_num) (by norm_num) ⟨5, 0, 4, 1, Or.inl (by decide), by decide⟩
  exact ⟨m, hsome, hmem⟩

end Checkers
